import Mathlib

/-!
Verification of the generic typed-object / wire-format binding layer of
gs_quant (file src/gs_quant/base.py).

The development shallowly embeds the binding engine: Python values are the
inductive type PyVal, declared field types are FieldType, and the
dictionary-construction, coercion, serialisation, cloning and identity
operations of gs_quant.base are translated into executable Lean functions.
Raising Python code is modelled with Except PyErr.

Modelling conventions, stated once here:
* Python dictionaries appear as association lists with string keys; dict.get,
  dict.pop and key membership are the corresponding assoc-list operations.
* Python str.isupper, inflection.underscore and inflection.camelize are
  implemented for the identifier alphabet actually used by field names
  (ASCII letters, digits and underscores, no consecutive capitals).
* datetime.datetime.fromtimestamp is evaluated at UTC; the host-local
  timezone of CPython only shifts the civil fields and is irrelevant to
  every property proved below.
* dateutil.parser.isoparse is modelled on the extended ISO-8601 forms the
  engine actually receives: date, optionally a T and a time with up to six
  fractional digits, optionally a trailing Z.  Fractions of more than six
  digits are a parse failure, as in dateutil.
* Enum semantics (exact lookup in value2member, the EnumBase case-insensitive
  missing hook, ValueError on a failed hook, AttributeError when the hook
  lower-cases a non-string) follow CPython 3.7, the interpreter line the
  package declares.
-/

/-! ## Identifier conventions: inflection.camelize / underscore, Python keywords -/

/-- Split a character list at every occurrence of a separator, like
str.split with a one-character separator. -/
def splitOnChar (sep : Char) : List Char → List (List Char)
  | [] => [[]]
  | c :: rest =>
    let r := splitOnChar sep rest
    if c = sep then [] :: r
    else
      match r with
      | [] => [[c]]
      | g :: gs => (c :: g) :: gs

/-- Uppercase the first character of a part, like inflection does for each
underscore-separated part. -/
def capitalizeFirst : List Char → List Char
  | [] => []
  | c :: cs => c.toUpper :: cs

/-- Model of inflection.camelize(s, uppercase_first_letter=False): split on
underscores, keep the first part, capitalise the first letter of the rest. -/
def camelize (s : String) : String :=
  match splitOnChar '_' s.data with
  | [] => s
  | p :: ps => String.mk (p ++ (ps.map capitalizeFirst).flatten)

/-- Helper for underscoreS: walk the characters remembering the previous one,
inserting an underscore before an uppercase letter that follows a lowercase
letter or a digit. -/
def underscoreChars : Option Char → List Char → List Char
  | _, [] => []
  | prev, c :: cs =>
    let sep : Bool :=
      c.isUpper && (match prev with
                    | some p => p.isLower || p.isDigit
                    | none => false)
    if sep then '_' :: c.toLower :: underscoreChars (some c) cs
    else (if c = '-' then '_' else c.toLower) :: underscoreChars (some c) cs

/-- Model of inflection.underscore: convert a camelCase identifier to
snake_case.  On identifiers that are already snake_case it is the identity. -/
def underscoreS (s : String) : String :=
  String.mk (underscoreChars none s.data)

/-- Model of Python str.isupper: at least one cased character and no lowercase
character. -/
def isUpperStr (s : String) : Bool :=
  s.data.any Char.isAlpha && s.data.all (fun c => !c.isLower)

/-- Modelled subset of keyword.kwlist together with dir(builtins): the
reserved identifiers a generated schema can collide with.  Only membership
matters to the engine; we list representatives. -/
def pythonReservedNames : List String :=
  ["and", "class", "def", "from", "import", "in", "is", "lambda", "not",
   "or", "pass", "return", "type", "id", "list", "dict", "set", "format",
   "property", "object", "hash", "input", "filter", "map", "range"]

/-- Model of gs_quant.base._normalise_arg: append a trailing underscore to a
keyword or builtin identifier. -/
def normaliseArg (arg : String) : String :=
  if pythonReservedNames.contains arg then arg ++ "_" else arg

/-! ## Values and errors -/

/-- Civil date-time as produced by datetime / dateutil: year, month, day,
hour, minute, second, microsecond, and whether the value is UTC-aware. -/
structure PyDateTime where
  year : Nat
  month : Nat
  day : Nat
  hour : Nat
  minute : Nat
  second : Nat
  microsecond : Nat
  utc : Bool
  deriving Repr, DecidableEq

/-- The Python runtime values the binding layer manipulates. -/
inductive PyVal where
  | none
  | pyBool (b : Bool)
  | pyInt (n : Int)
  | pyFloat (q : Rat)
  | pyStr (s : String)
  | enumMember (ename : String) (value : String)
  | pyDate (year month day : Nat)
  | pyDatetime (d : PyDateTime)
  | pyTuple (items : List PyVal)
  | pyDict (entries : List (String × PyVal))
  | pyObj (tname : String) (fields : List (String × PyVal))

/-- The exceptions the embedded code can raise. -/
inductive PyErr where
  | keyError (key : String)
  | typeError
  | attributeError
  | valueError (msg : String)
  deriving Repr, DecidableEq

/-! ## Association-list operations standing for Python dictionaries -/

/-- Value stored under a key (dict.get, returning an Option). -/
def lookupA (k : String) : List (String × PyVal) → Option PyVal
  | [] => Option.none
  | (k2, v) :: rest => if k2 = k then some v else lookupA k rest

/-- Remove the first binding of a key (the removal part of dict.pop). -/
def removeKey (k : String) : List (String × PyVal) → List (String × PyVal)
  | [] => []
  | (k2, v) :: rest => if k2 = k then rest else (k2, v) :: removeKey k rest

/-- Replace the value stored under a key, as attribute assignment does on an
already-populated object. -/
def setField (k : String) (v : PyVal) : List (String × PyVal) → List (String × PyVal)
  | [] => []
  | (k2, w) :: rest => if k2 = k then (k2, v) :: rest else (k2, w) :: setField k v rest

/-- Keys of a dictionary. -/
def keysOf (l : List (String × PyVal)) : List String :=
  l.map Prod.fst

@[simp] theorem lookupA_nil (k : String) : lookupA k [] = Option.none := rfl

@[simp] theorem lookupA_cons (k k2 : String) (v : PyVal) (rest : List (String × PyVal)) :
    lookupA k ((k2, v) :: rest) = if k2 = k then some v else lookupA k rest := rfl

@[simp] theorem removeKey_nil (k : String) : removeKey k [] = [] := rfl

@[simp] theorem removeKey_cons (k k2 : String) (v : PyVal) (rest : List (String × PyVal)) :
    removeKey k ((k2, v) :: rest) =
      if k2 = k then rest else (k2, v) :: removeKey k rest := rfl

theorem lookupA_eq_none_of_not_mem (k : String) (l : List (String × PyVal))
    (h : k ∉ keysOf l) : lookupA k l = Option.none := by
  induction l with
  | nil => rfl
  | cons p rest ih =>
    obtain ⟨k2, v⟩ := p
    simp only [keysOf, List.map_cons, List.mem_cons] at h
    push_neg at h
    rw [lookupA_cons, if_neg (fun hh => h.1 hh.symm), ih (by simpa [keysOf] using h.2)]

theorem keysOf_removeKey_subset (k : String) (l : List (String × PyVal)) :
    keysOf (removeKey k l) ⊆ keysOf l := by
  induction l with
  | nil => simp [removeKey, keysOf]
  | cons p rest ih =>
    obtain ⟨k2, v⟩ := p
    by_cases h : k2 = k
    · simp only [removeKey_cons, if_pos h, keysOf, List.map_cons]
      exact List.subset_cons_self _ _
    · simp only [removeKey_cons, if_neg h, keysOf, List.map_cons]
      exact List.cons_subset_cons _ ih

theorem nodup_keysOf_removeKey (k : String) (l : List (String × PyVal))
    (h : (keysOf l).Nodup) : (keysOf (removeKey k l)).Nodup := by
  induction l with
  | nil => simp [keysOf]
  | cons p rest ih =>
    obtain ⟨k2, v⟩ := p
    simp only [keysOf, List.map_cons, List.nodup_cons] at h
    by_cases hk : k2 = k
    · simpa [removeKey, hk, keysOf] using h.2
    · simp only [removeKey_cons, if_neg hk, keysOf, List.map_cons, List.nodup_cons]
      refine ⟨fun hmem => h.1 (keysOf_removeKey_subset k rest hmem), ih h.2⟩

theorem lookupA_removeKey (k j : String) (l : List (String × PyVal))
    (h : (keysOf l).Nodup) :
    lookupA k (removeKey j l) = if k = j then Option.none else lookupA k l := by
  induction l with
  | nil => simp
  | cons p rest ih =>
    obtain ⟨k2, v⟩ := p
    simp only [keysOf, List.map_cons, List.nodup_cons] at h
    by_cases hj : k2 = j
    · subst hj
      rw [removeKey_cons, if_pos rfl]
      by_cases hk : k = k2
      · subst hk
        simp [lookupA_eq_none_of_not_mem k rest (by simpa [keysOf] using h.1)]
      · rw [if_neg hk, lookupA_cons, if_neg (fun hh : k2 = k => hk hh.symm)]
    · simp only [removeKey_cons, if_neg hj, lookupA_cons, ih h.2]
      by_cases hk : k2 = k
      · have hkj : ¬ k = j := fun hh => hj (hk.trans hh)
        simp [hk, hkj]
      · simp [hk]

/-! ## Epoch seconds to civil time (datetime.datetime.fromtimestamp at UTC) -/

/-- Civil date from a count of days since 1970-01-01 (proleptic Gregorian). -/
def civilFromDays (z0 : Int) : Int × Nat × Nat :=
  let z : Int := z0 + 719468
  let era : Int := (if 0 ≤ z then z else z - 146096) / 146097
  let doe : Nat := (z - era * 146097).toNat
  let yoe : Nat := (doe - doe / 1460 + doe / 36524 - doe / 146096) / 365
  let y : Int := (yoe : Int) + era * 400
  let doy : Nat := doe - (365 * yoe + yoe / 4 - yoe / 100)
  let mp : Nat := (5 * doy + 2) / 153
  let d : Nat := doy - (153 * mp + 2) / 5 + 1
  let m : Nat := if mp < 10 then mp + 3 else mp - 9
  (if m ≤ 2 then y + 1 else y, m, d)

/-- Zero-padded decimal rendering, as datetime.isoformat prints fields. -/
def padNum (w : Nat) (n : Nat) : String :=
  let s := toString n
  if s.length < w then String.mk (List.replicate (w - s.length) '0') ++ s else s

/-- Model of datetime.datetime.fromtimestamp(ms / 1000).isoformat() at UTC:
the naive civil time of the epoch-millisecond instant, rendered in extended
ISO-8601, with the fractional part omitted when zero just as isoformat does. -/
def fromtimestampIso (ms : Int) : String :=
  let secs : Int := ms.ediv 1000
  let us : Nat := ((ms.emod 1000) * 1000).toNat
  let days : Int := secs.ediv 86400
  let sod : Nat := (secs.emod 86400).toNat
  let c := civilFromDays days
  let base := padNum 4 c.1.toNat ++ "-" ++ padNum 2 c.2.1 ++ "-" ++ padNum 2 c.2.2 ++
    "T" ++ padNum 2 (sod / 3600) ++ ":" ++ padNum 2 (sod % 3600 / 60) ++ ":" ++
    padNum 2 (sod % 60)
  if us = 0 then base else base ++ "." ++ padNum 6 us

/-! ## ISO-8601 parsing (dateutil.parser.isoparse) and the fractional-second
truncation performed by Base.__from_dict before parsing -/

/-- Model of the regular expression search and substitution in
Base.__from_dict: when the string ends in a dot, a run of digits and a Z,
and the run has more than six digits, keep only the first six. -/
def truncateFrac (s : String) : String :=
  match s.data.reverse with
  | 'Z' :: revRest =>
    let digits := revRest.takeWhile Char.isDigit
    let rest := revRest.dropWhile Char.isDigit
    match rest with
    | '.' :: before =>
      if 6 < digits.length then
        String.mk (before.reverse ++ '.' :: (digits.reverse.take 6) ++ ['Z'])
      else s
    | _ => s
  | _ => s

/-- All characters are decimal digits. -/
def allDigits (cs : List Char) : Bool := cs.all Char.isDigit

/-- Decimal value of a digit string. -/
def digitsToNat (cs : List Char) : Nat := cs.foldl (fun a c => a * 10 + (c.toNat - 48)) 0

/-- Gregorian leap-year test. -/
def isLeapYear (y : Nat) : Bool := (y % 4 == 0 && y % 100 != 0) || y % 400 == 0

/-- Length of a month, for date validation as datetime performs it. -/
def daysInMonth (y m : Nat) : Nat :=
  if m = 2 then (if isLeapYear y then 29 else 28)
  else if m = 4 ∨ m = 6 ∨ m = 9 ∨ m = 11 then 30 else 31

/-- Parse the date component YYYY-MM-DD of an extended ISO-8601 string. -/
def parseDatePart (cs : List Char) : Option (Nat × Nat × Nat) :=
  match splitOnChar '-' cs with
  | [ys, ms, ds] =>
    if ys.length = 4 ∧ ms.length = 2 ∧ ds.length = 2 ∧
       allDigits ys = true ∧ allDigits ms = true ∧ allDigits ds = true then
      let y := digitsToNat ys
      let m := digitsToNat ms
      let d := digitsToNat ds
      if 1 ≤ m ∧ m ≤ 12 ∧ 1 ≤ d ∧ d ≤ daysInMonth y m then some (y, m, d) else Option.none
    else Option.none
  | _ => Option.none

/-- Parse the time component of an extended ISO-8601 string: hour, optional
minute and second, an optional fraction of at most six digits, an optional
trailing Z.  More than six fractional digits is a parse failure, exactly as
in dateutil. -/
def parseTimePart (cs : List Char) : Option (Nat × Nat × Nat × Nat × Bool) :=
  let stripped :=
    match cs.reverse with
    | 'Z' :: r => (r.reverse, true)
    | _ => (cs, false)
  let t := stripped.1
  let utc := stripped.2
  let withHMS := fun (hs mins secs : List Char) (us : Nat) =>
    if hs.length = 2 ∧ mins.length = 2 ∧ secs.length = 2 ∧
       allDigits hs = true ∧ allDigits mins = true ∧ allDigits secs = true then
      let h := digitsToNat hs
      let mi := digitsToNat mins
      let sc := digitsToNat secs
      if h ≤ 23 ∧ mi ≤ 59 ∧ sc ≤ 59 then some (h, mi, sc, us, utc) else Option.none
    else Option.none
  match splitOnChar ':' t with
  | [hs] =>
    if hs.length = 2 ∧ allDigits hs = true then
      let h := digitsToNat hs
      if h ≤ 23 then some (h, 0, 0, 0, utc) else Option.none
    else Option.none
  | [hs, mins] =>
    if hs.length = 2 ∧ mins.length = 2 ∧ allDigits hs = true ∧ allDigits mins = true then
      let h := digitsToNat hs
      let mi := digitsToNat mins
      if h ≤ 23 ∧ mi ≤ 59 then some (h, mi, 0, 0, utc) else Option.none
    else Option.none
  | [hs, mins, ss] =>
    match splitOnChar '.' ss with
    | [secs] => withHMS hs mins secs 0
    | [secs, frac] =>
      if 1 ≤ frac.length ∧ frac.length ≤ 6 ∧ allDigits frac = true then
        withHMS hs mins secs (digitsToNat frac * 10 ^ (6 - frac.length))
      else Option.none
    | _ => Option.none
  | _ => Option.none

/-- Model of dateutil.parser.isoparse on the extended ISO-8601 forms used by
the wire format. -/
def isoparse (s : String) : Option PyDateTime :=
  match splitOnChar 'T' s.data with
  | [d] =>
    match parseDatePart d with
    | some (y, m, dd) => some ⟨y, m, dd, 0, 0, 0, 0, false⟩
    | Option.none => Option.none
  | [d, t] =>
    match parseDatePart d, parseTimePart t with
    | some (y, m, dd), some (h, mi, sc, us, utc) => some ⟨y, m, dd, h, mi, sc, us, utc⟩
    | _, _ => Option.none
  | _ => Option.none

/-! ## Enum coercion: gs_quant.base.get_enum_value and EnumBase._missing_ -/

/-- Model of str.lower restricted to the ASCII member values the enums use. -/
def toLowerS (s : String) : String :=
  String.mk (s.data.map Char.toLower)

/-- Python isinstance(value, enum_type) for our tagged enum members. -/
def isMemberOf (ename : String) : PyVal → Bool
  | .enumMember e2 _ => e2 == ename
  | _ => false

/-- Model of calling the enum type on a raw value, CPython 3.7 semantics:
exact lookup in the value-to-member map, then the EnumBase._missing_ hook,
which scans members case-insensitively and lower-cases the key.  A hook that
returns no member becomes ValueError; a non-string key makes the hook raise
AttributeError, which enum re-raises. -/
def enumCall (ename : String) (members : List String) (v : PyVal) : Except PyErr PyVal :=
  match v with
  | .pyStr s =>
    if members.contains s then .ok (.enumMember ename s)
    else
      match members.find? (fun m => toLowerS m == toLowerS s) with
      | some m => .ok (.enumMember ename m)
      | Option.none => .error (.valueError "not a valid member")
  | _ => .error .attributeError

/-- Model of gs_quant.base.get_enum_value.  The Bool records whether the
non-fatal warning was logged (the ValueError branch).  Only ValueError is
caught: any other exception escaping the enum call propagates.  The string
case spells out the None sentinel test and the (vacuous for strings)
isinstance test of the source. -/
def getEnumValue (ename : String) (members : List String) (v : PyVal) :
    Except PyErr (PyVal × Bool) :=
  match v with
  | .none => .ok (.none, false)
  | .pyStr s =>
    if s = "None" then .ok (.none, false)
    else
      match enumCall ename members (.pyStr s) with
      | .ok m => .ok (m, false)
      | .error (.valueError _) => .ok (.pyStr s, true)
      | .error e => .error e
  | w =>
    if isMemberOf ename w then .ok (w, false)
    else
      match enumCall ename members w with
      | .ok m => .ok (m, false)
      | .error (.valueError _) => .ok (w, true)
      | .error e => .error e

/-! ## The date and datetime branches of Base.__from_dict -/

/-- Coercion applied when the declared property type is datetime.datetime:
integers (and bools, which Python treats as ints) become the isoformat
string of the epoch-millisecond instant; strings are ISO-parsed after
fractional-second truncation; anything else is a TypeError from re.search. -/
def coerceDatetimeValue (v : PyVal) : Except PyErr PyVal :=
  match v with
  | .pyBool b => .ok (.pyStr (fromtimestampIso (if b then 1 else 0)))
  | .pyInt n => .ok (.pyStr (fromtimestampIso n))
  | .pyStr s =>
    match isoparse (truncateFrac s) with
    | some d => .ok (.pyDatetime d)
    | Option.none => .error (.valueError "invalid isoformat string")
  | _ => .error .typeError

/-- Coercion applied when the declared property type is datetime.date:
parse and keep the date component; non-strings are a TypeError from
dateutil. -/
def coerceDateValue (v : PyVal) : Except PyErr PyVal :=
  match v with
  | .pyStr s =>
    match isoparse s with
    | some d => .ok (.pyDate d.year d.month d.day)
    | Option.none => .error (.valueError "invalid isoformat string")
  | _ => .error .typeError

example : camelize "fixed_rate" = "fixedRate" := by rfl

example : underscoreS "fixedRate" = "fixed_rate" := by rfl

example : underscoreS "fixed_rate" = "fixed_rate" := by rfl

example : truncateFrac "2020-01-01T00:00:00.1234567Z" = "2020-01-01T00:00:00.123456Z" := by rfl

example : isoparse "2020-01-01T00:00:00.123456Z" = some ⟨2020, 1, 1, 0, 0, 0, 123456, true⟩ := by rfl

example : isoparse "2020-01-01T00:00:00.1234567Z" = Option.none := by rfl

example : fromtimestampIso 1577836800000 = "2020-01-01T00:00:00" := by rfl

/-! ## Declared field types and dictionary construction

A declared type is a list of fields: canonical snake_case name, whether the
constructor parameter is required (no default), and the declared type.  This
is the information Base.prop_type, Base.properties and the constructor
signature provide; keyword-mangled names (trailing underscore) do not occur
in the schemas modelled here, so the prop-name of an argument is the
argument itself, as in Base._from_dict. -/

inductive FieldType where
  | prim
  | dateT
  | datetimeT
  | enumT (ename : String) (members : List String)
  | objT (tname : String) (fields : List (String × Bool × FieldType))
  | seqT (item : FieldType)

/-- Lookup of a property value with the camelCase fallback, exactly the
expression values.get(prop, values.get(camelize(prop))) of
Base.__from_dict. -/
def getChain (n : String) (values : List (String × PyVal)) : PyVal :=
  match lookupA n values with
  | some x => x
  | Option.none => (lookupA (camelize n) values).getD PyVal.none

/-- Python is-None test, as the if prop_value is not None guard uses it. -/
def isNoneV : PyVal → Bool
  | .none => true
  | _ => false

/-! The construction engine recurses from a field of object type back into
Base.from_dict.  That reentry is taken as a parameter fd of each pass, and
the knot is tied below by fromDictObjF, whose depth budget strictly
decreases at every reentry.  The public fromDictObj seeds the budget with
the CPython recursion limit: the Python recursion is bounded the same way,
raising RecursionError (maximum recursion depth exceeded) past it, and the
recursion descends along the nesting of the declared schema, far below
that bound for every generated type. -/

/-- The default CPython recursion limit, sys.getrecursionlimit(). -/
def pythonRecursionLimit : Nat := 1000

/-- Coercion of a required constructor argument in Base._from_dict: nested
dictionaries are recursively constructed, enum targets go through
get_enum_value, everything else is passed through. -/
def coerceReqG
    (fd : String → List (String × Bool × FieldType) → List (String × PyVal) →
      Except PyErr PyVal) :
    FieldType → PyVal → Except PyErr PyVal
  | .enumT e ms, v => (getEnumValue e ms v).map Prod.fst
  | .objT t fs, v =>
    match v with
    | .pyDict d => fd t fs d
    | _ => .ok v
  | _, v => .ok v

/-- Coercion of one element of a sequence-typed property value: constructed
objects and enum members pass through, dictionaries are recursively
constructed for object element types, enum element types go through
get_enum_value, everything else is kept as tuple() keeps it. -/
def coerceItemG
    (fd : String → List (String × Bool × FieldType) → List (String × PyVal) →
      Except PyErr PyVal) :
    FieldType → PyVal → Except PyErr PyVal
  | .objT t fs, x =>
    match x with
    | .pyObj tn flds => .ok (.pyObj tn flds)
    | .enumMember e vv => .ok (.enumMember e vv)
    | .pyDict d => fd t fs d
    | _ => .error .typeError
  | .enumT e ms, x => (getEnumValue e ms x).map Prod.fst
  | _, x => .ok x

/-- Elementwise coercion of a sequence-typed property value. -/
def coerceItemsG
    (fd : String → List (String × Bool × FieldType) → List (String × PyVal) →
      Except PyErr PyVal) (item : FieldType) :
    List PyVal → Except PyErr (List PyVal)
  | [] => .ok []
  | x :: xs =>
    match coerceItemG fd item x with
    | .error e => .error e
    | .ok y =>
      match coerceItemsG fd item xs with
      | .error e => .error e
      | .ok ys => .ok (y :: ys)

/-- Coercion of a non-None property value in Base.__from_dict, dispatching
on the declared property type. -/
def coerceOptG
    (fd : String → List (String × Bool × FieldType) → List (String × PyVal) →
      Except PyErr PyVal) :
    FieldType → PyVal → Except PyErr PyVal
  | .prim, v => .ok v
  | .datetimeT, v => coerceDatetimeValue v
  | .dateT, v => coerceDateValue v
  | .enumT e ms, v => (getEnumValue e ms v).map Prod.fst
  | .objT t fs, v =>
    match v with
    | .pyObj tn flds => .ok (.pyObj tn flds)
    | .pyDict d => fd t fs d
    | _ => .error .typeError
  | .seqT item, v =>
    match v with
    | .pyTuple xs =>
      match coerceItemsG fd item xs with
      | .ok ys => .ok (.pyTuple ys)
      | .error e => .error e
    | _ => .error .typeError

/-- The required-argument loop of Base._from_dict: each required field is
popped from the input under its canonical name only, defaulting to None,
and coerced; the consumed dictionary is threaded through. -/
def requiredPassG
    (fd : String → List (String × Bool × FieldType) → List (String × PyVal) →
      Except PyErr PyVal) :
    List (String × Bool × FieldType) → List (String × PyVal) →
      Except PyErr (List (String × PyVal) × List (String × PyVal))
  | [], values => .ok ([], values)
  | (n, true, ty) :: fs, values =>
    match coerceReqG fd ty ((lookupA n values).getD PyVal.none) with
    | .error e => .error e
    | .ok cv =>
      match requiredPassG fd fs (removeKey n values) with
      | .error e => .error e
      | .ok r => .ok ((n, cv) :: r.1, r.2)
  | (_, false, _) :: fs, values => requiredPassG fd fs values

/-- The property loop of Base.__from_dict applied to the freshly constructed
instance: every property is looked up under its canonical then camelCase
name; a non-None value is coerced and assigned, otherwise the value given
by the constructor is kept. -/
def optionalPassG
    (fd : String → List (String × Bool × FieldType) → List (String × PyVal) →
      Except PyErr PyVal) :
    List (String × Bool × FieldType) → List (String × PyVal) →
      List (String × PyVal) → Except PyErr (List (String × PyVal))
  | [], _, _ => .ok []
  | (n, r, ty) :: fs, req, values =>
    let start := if r then (lookupA n req).getD PyVal.none else PyVal.none
    let v := getChain n values
    if isNoneV v then
      match optionalPassG fd fs req values with
      | .error e => .error e
      | .ok rest => .ok ((n, start) :: rest)
    else
      match coerceOptG fd ty v with
      | .error e => .error e
      | .ok fv =>
        match optionalPassG fd fs req values with
        | .error e => .error e
        | .ok rest => .ok ((n, fv) :: rest)

/-- Model of Base._from_dict at a given recursion budget: build the required
arguments, call the constructor, then populate the remaining properties
from the leftover dictionary. -/
def fromDictObjF : Nat → String → List (String × Bool × FieldType) →
    List (String × PyVal) → Except PyErr PyVal
  | 0, _, _, _ => .error (.valueError "maximum recursion depth exceeded")
  | fuel + 1, t, fs, values =>
    match requiredPassG (fromDictObjF fuel) fs values with
    | .error e => .error e
    | .ok rq =>
      match optionalPassG (fromDictObjF fuel) fs rq.1 rq.2 with
      | .error e => .error e
      | .ok flds => .ok (.pyObj t flds)

/-- Model of Base._from_dict (and hence Base.from_dict). -/
def fromDictObj (t : String) (fs : List (String × Bool × FieldType))
    (values : List (String × PyVal)) : Except PyErr PyVal :=
  fromDictObjF pythonRecursionLimit t fs values

/-- The required-argument loop with the public reentry. -/
def requiredPass (fs : List (String × Bool × FieldType))
    (values : List (String × PyVal)) :
    Except PyErr (List (String × PyVal) × List (String × PyVal)) :=
  requiredPassG fromDictObj fs values

/-- The property loop with the public reentry. -/
def optionalPass (fs : List (String × Bool × FieldType))
    (req values : List (String × PyVal)) : Except PyErr (List (String × PyVal)) :=
  optionalPassG fromDictObj fs req values

/-- Property coercion with the public reentry. -/
def coerceOpt (ty : FieldType) (v : PyVal) : Except PyErr PyVal :=
  coerceOptG fromDictObj ty v

/-- Required-argument coercion with the public reentry. -/
def coerceReq (ty : FieldType) (v : PyVal) : Except PyErr PyVal :=
  coerceReqG fromDictObj ty v

/-- One unfolding of fromDictObj, with the depleted reentry explicit. -/
theorem fromDictObj_eq (t : String) (fs : List (String × Bool × FieldType))
    (values : List (String × PyVal)) :
    fromDictObj t fs values =
      (match requiredPassG (fromDictObjF (pythonRecursionLimit - 1)) fs values with
       | .error e => .error e
       | .ok rq =>
         match optionalPassG (fromDictObjF (pythonRecursionLimit - 1)) fs rq.1 rq.2 with
         | .error e => .error e
         | .ok flds => .ok (.pyObj t flds)) := rfl

/-! ## Serialisation: Base.as_dict -/

/-- Model of Base.as_dict: the non-None property values keyed by the
canonical name, or by its camelisation when as_camel_case is set. -/
def asDict (flds : List (String × PyVal)) (camel : Bool) : List (String × PyVal) :=
  match flds with
  | [] => []
  | (n, v) :: rest =>
    if isNoneV v then asDict rest camel
    else ((if camel then camelize n else n), v) :: asDict rest camel

theorem isNoneV_eq_false (v : PyVal) (h : v ≠ PyVal.none) : isNoneV v = false := by
  cases v <;> simp_all [isNoneV]

/-! ## Cloning: Base.clone -/

/-- Model of Base.clone: shallow-copy, then assign each override whose key is
verbatim one of the declared property names, raising ValueError on any other
key.  The copy is functional, so the receiver is untouched by construction. -/
def cloneObj (propNames : List String) (flds : List (String × PyVal)) :
    List (String × PyVal) → Except PyErr (List (String × PyVal))
  | [] => .ok flds
  | (k, v) :: rest =>
    if propNames.contains k then cloneObj propNames (setField k v flds) rest
    else .error (.valueError "Only properties may be passed as kwargs")

/-! ## Keyword normalisation: BaseMeta.call -/

/-- Model of the keyword loop of BaseMeta.__call__: each keyword is
keyword-normalised; a non-uppercase keyword whose snake_case differs is
renamed to snake_case, but raises ValueError when the snake_case spelling is
itself among the original keywords. -/
def basemetaNormalise (origKeys : List String) :
    List (String × PyVal) → Except PyErr (List (String × PyVal))
  | [] => .ok []
  | (k, v) :: rest =>
    let arg := normaliseArg k
    if isUpperStr arg = true then
      (basemetaNormalise origKeys rest).map (fun r => (arg, v) :: r)
    else
      let sk := underscoreS arg
      if sk = arg then
        (basemetaNormalise origKeys rest).map (fun r => (arg, v) :: r)
      else if origKeys.contains sk then .error (.valueError "both specified")
      else (basemetaNormalise origKeys rest).map (fun r => (sk, v) :: r)

/-- Model of BaseMeta.__call__ keyword handling ahead of object creation. -/
def basemetaCall (kwargs : List (String × PyVal)) : Except PyErr (List (String × PyVal)) :=
  basemetaNormalise (kwargs.map Prod.fst) kwargs

/-! ## Polymorphic dispatch: Instrument.from_dict

The concrete instrument classes live in gs_quant.target.instrument, which is
not part of the sources; the discriminant registry and the Swap schema are
therefore modelled from the spec. -/

/-- Modelled from the spec: the member values of the AssetClass enum of
gs_quant.target.instrument, which is not under src/. -/
def assetClassMembers : List String :=
  ["Cash", "Commod", "Credit", "Equity", "FX", "Rates"]

/-- Modelled from the spec: the member values of the AssetType enum of
gs_quant.target.instrument, which is not under src/. -/
def assetTypeMembers : List String :=
  ["Currency", "Forward", "Option", "Swap", "Swaption"]

/-- Modelled from the spec: the declared fields of the Swap instrument type
(Scenario 1 names its canonical field fixed_rate); gs_quant.target.instrument
is not under src/.  All constructor parameters of the generated instrument
classes carry defaults, so every field is optional. -/
def swapSchema : List (String × Bool × FieldType) :=
  [("asset_class", false, FieldType.enumT "AssetClass" assetClassMembers),
   ("type", false, FieldType.enumT "AssetType" assetTypeMembers),
   ("pay_or_receive", false, FieldType.prim),
   ("termination_date", false, FieldType.prim),
   ("notional_currency", false, FieldType.prim),
   ("fixed_rate", false, FieldType.prim),
   ("floating_rate_option", false, FieldType.prim)]

/-- Modelled from the spec: the lazily built discriminant registry of
Instrument.asset_class_and_type_to_instrument, keyed by the member-value
pair of each concrete type's default-instance discriminants, including the
explicit Cash/Currency to Forward entry built by the source. -/
def instrumentRegistry :
    List ((String × String) × (String × List (String × Bool × FieldType))) :=
  [(("Cash", "Currency"), ("Forward", [("asset_class", false, FieldType.enumT "AssetClass" assetClassMembers), ("type", false, FieldType.enumT "AssetType" assetTypeMembers), ("pair", false, FieldType.prim)])),
   (("Rates", "Swap"), ("Swap", swapSchema))]

/-- Dictionary lookup in the discriminant registry: its keys are enum-member
pairs, so only a query built from members of the same two enums can hit. -/
def registryLookup (a t : PyVal) :
    Option (String × List (String × Bool × FieldType)) :=
  match a, t with
  | .enumMember ea va, .enumMember et vt =>
    if ea = "AssetClass" ∧ et = "AssetType" then
      (instrumentRegistry.find? (fun e => e.1.1 == va && e.1.2 == vt)).map Prod.snd
    else Option.none
  | _, _ => Option.none

/-- Modelled from the spec: gs_quant.instrument.Security is not under src/;
the spec designates it as the default untyped representation into which any
unknown but well-formed payload remains constructible, so it wraps the
remaining dictionary. -/
def securityFromDict (values : List (String × PyVal)) : PyVal :=
  .pyObj "Security" values

/-- Model of Instrument.from_dict: None for a falsy dictionary, then the two
discriminants are popped (KeyError when absent) and enum-coerced in source
order, the registry is consulted, and an unmatched pair falls back to
Security. -/
def instrumentFromDict (values : List (String × PyVal)) :
    Except PyErr (Option PyVal) :=
  match values with
  | [] => .ok Option.none
  | _ =>
    match lookupA "asset_class" values with
    | Option.none => .error (.keyError "asset_class")
    | some ac =>
      let values1 := removeKey "asset_class" values
      match getEnumValue "AssetClass" assetClassMembers ac with
      | .error e => .error e
      | .ok (acv, _) =>
        match lookupA "type" values1 with
        | Option.none => .error (.keyError "type")
        | some ty =>
          let values2 := removeKey "type" values1
          match getEnumValue "AssetType" assetTypeMembers ty with
          | .error e => .error e
          | .ok (tyv, _) =>
            match registryLookup acv tyv with
            | some (tn, sch) => (fromDictObj tn sch values2).map some
            | Option.none => .ok (some (securityFromDict values2))

/-! ## Identity and equality: Base.hash and Base.eq

Python hash() on the field values is modelled by a fixed structural hash;
the engine only combines those hashes, so any deterministic function that
respects value equality gives a faithful model of the combination logic. -/

/-- Deterministic hash of a character list. -/
def strHash (cs : List Char) : Nat :=
  cs.foldl (fun a c => a * 31 + c.toNat) 7

mutual

/-- Stand-in for Python hash() on the modelled values. -/
def pyHash : PyVal → Nat
  | .none => 0
  | .pyBool b => if b then 1 else 2
  | .pyInt n => 3 + 2 * n.natAbs + (if 0 ≤ n then 0 else 1)
  | .pyFloat q => 5 + 3 * q.num.natAbs + 5 * q.den
  | .pyStr s => 7 + strHash s.data
  | .enumMember e vv => 11 + strHash e.data + 3 * strHash vv.data
  | .pyDate y m d => 13 + y * 400 + m * 31 + d
  | .pyDatetime d => 17 + d.year + d.month + d.day + d.hour + d.minute +
      d.second + d.microsecond + (if d.utc then 1 else 0)
  | .pyTuple xs => 19 + 2 * pyHashList xs
  | .pyDict kvs => 23 + 2 * pyHashKVs kvs
  | .pyObj t fsv => 29 + strHash t.data + 2 * pyHashKVs fsv
termination_by v => sizeOf v

/-- Hash of a list of values. -/
def pyHashList : List PyVal → Nat
  | [] => 0
  | x :: xs => 1 + pyHash x + 3 * pyHashList xs
termination_by xs => sizeOf xs

/-- Hash of a keyed list of values. -/
def pyHashKVs : List (String × PyVal) → Nat
  | [] => 0
  | (k, v) :: rest => 1 + strHash k.data + pyHash v + 3 * pyHashKVs rest
termination_by kvs => sizeOf kvs

end

/-- Model of the loop of Base.__hash__: the hash of the first property value,
folded with xor over the hashes of the remaining property values; the empty
property list hashes to the constant 1. -/
def hashFields : List (String × PyVal) → Nat
  | [] => 1
  | (_, v) :: rest => (rest.map (fun p => pyHash p.2)).foldl Nat.xor (pyHash v)

/-- An instance as the identity engine sees it: its concrete type, its
declared property values, and the cached hash slot. -/
structure TObj where
  tname : String
  fields : List (String × PyVal)
  cache : Option Nat

/-- Model of Base.__hash__: a present cache is returned, otherwise the hash
is computed from the fields (and would be stored). -/
def objHash (o : TObj) : Nat :=
  match o.cache with
  | some h => h
  | Option.none => hashFields o.fields

/-- The invariant Base maintains through _property_changed: a populated
cache slot holds the hash of the current field values. -/
def cacheOk (o : TObj) : Prop :=
  ∀ h, o.cache = some h → h = hashFields o.fields

/-- Model of Base.__eq__: same concrete type, the cached-hash short-circuit,
and pairwise equality of every declared property value.  Python ==
on the modelled value types is structural equality. -/
def eqObj (a b : TObj) : Prop :=
  a.tname = b.tname ∧
  (a.cache = Option.none ∨ b.cache = Option.none ∨ a.cache = b.cache) ∧
  ∀ p ∈ keysOf a.fields, lookupA p a.fields = lookupA p b.fields

/-! ## Evaluation lemmas for the concrete camelisations used by the schemas -/

theorem camelize_asset_class : camelize "asset_class" = "assetClass" := rfl

theorem camelize_type_id : camelize "type" = "type" := rfl

theorem camelize_pay_or_receive : camelize "pay_or_receive" = "payOrReceive" := rfl

theorem camelize_termination_date : camelize "termination_date" = "terminationDate" := rfl

theorem camelize_notional_currency : camelize "notional_currency" = "notionalCurrency" := rfl

theorem camelize_fixed_rate : camelize "fixed_rate" = "fixedRate" := rfl

theorem camelize_floating_rate_option :
    camelize "floating_rate_option" = "floatingRateOption" := rfl

/-! ## Characterisation of enum coercion on strings -/

/-- The value enum coercion produces for a string raw value: the None
sentinel, the exact member, the first case-insensitive member, or the raw
string unchanged. -/
def enumCoerceStr (ename : String) (members : List String) (s : String) : PyVal :=
  if s = "None" then PyVal.none
  else if members.contains s then .enumMember ename s
  else
    match members.find? (fun m => toLowerS m == toLowerS s) with
    | some m => .enumMember ename m
    | Option.none => .pyStr s

/-- Whether coercing a string raw value logs the non-fatal warning: exactly
when no member matches at all. -/
def enumWarned (members : List String) (s : String) : Bool :=
  if s = "None" then false
  else if members.contains s then false
  else (members.find? (fun m => toLowerS m == toLowerS s)).isNone

theorem getEnumValue_pyStr (ename : String) (members : List String) (s : String) :
    getEnumValue ename members (.pyStr s) =
      .ok (enumCoerceStr ename members s, enumWarned members s) := by
  by_cases hN : s = "None"
  · simp [getEnumValue, enumCoerceStr, enumWarned, hN]
  · simp only [getEnumValue, enumCall, enumCoerceStr, enumWarned, if_neg hN]
    by_cases hmem : s ∈ members
    · simp [hmem]
    · cases hf : members.find? (fun m => toLowerS m == toLowerS s) with
      | some m => simp [hmem, hf]
      | none => simp [hmem, hf]

/-! ## Concrete schemas and instances used by the scenario claims -/

/-- Canonical property names of a schema, as Base.properties exposes them. -/
def schemaNames (fs : List (String × Bool × FieldType)) : List String :=
  fs.map (fun x => x.1)

/-- The Swap field assignment produced when only fixed_rate is supplied. -/
def swapFieldsWithRate (v : PyVal) : List (String × PyVal) :=
  [("asset_class", PyVal.none), ("type", PyVal.none), ("pay_or_receive", PyVal.none),
   ("termination_date", PyVal.none), ("notional_currency", PyVal.none),
   ("fixed_rate", v), ("floating_rate_option", PyVal.none)]

/-- A fully populated Swap instance. -/
def swapPopulated : List (String × PyVal) :=
  [("asset_class", .enumMember "AssetClass" "Rates"),
   ("type", .enumMember "AssetType" "Swap"),
   ("pay_or_receive", .pyStr "Pay"),
   ("termination_date", .pyStr "10y"),
   ("notional_currency", .pyStr "USD"),
   ("fixed_rate", .pyFloat (1/100)),
   ("floating_rate_option", .pyStr "USD-LIBOR-BBA")]

/-- A schema with a single required primitive field. -/
def reqOnlySchema : List (String × Bool × FieldType) :=
  [("fixed_rate", true, FieldType.prim)]

theorem swap_scenario1_construct :
    fromDictObj "Swap" swapSchema [("fixedRate", .pyFloat (1/100))] =
      .ok (.pyObj "Swap" (swapFieldsWithRate (.pyFloat (1/100)))) := rfl

/-- C10: Instrument.from_dict applied to an empty (falsy) input dictionary
returns None rather than a constructed object or an error. -/
theorem instrument_from_dict_empty_is_none :
    instrumentFromDict [] = .ok Option.none := rfl

/-- C2: at the Scenario 1 input the polymorphic dispatcher raises
KeyError because Instrument.from_dict pops the discriminant under its
canonical asset_class spelling only, so the camelCase wire payload never
reaches the registry; the same payload with the canonical discriminant
spelling does resolve to Swap and sets fixed_rate to 0.01. -/
theorem instrument_from_dict_scenario1 :
    instrumentFromDict
        [("assetClass", .pyStr "Rates"), ("type", .pyStr "Swap"),
         ("fixedRate", .pyFloat (1/100))] =
      .error (.keyError "asset_class")
    ∧ instrumentFromDict
        [("asset_class", .pyStr "Rates"), ("type", .pyStr "Swap"),
         ("fixedRate", .pyFloat (1/100))] =
      .ok (some (.pyObj "Swap" (swapFieldsWithRate (.pyFloat (1/100))))) := by
  constructor
  · rfl
  · have hstep : instrumentFromDict
        [("asset_class", .pyStr "Rates"), ("type", .pyStr "Swap"),
         ("fixedRate", .pyFloat (1/100))] =
        (fromDictObj "Swap" swapSchema [("fixedRate", .pyFloat (1/100))]).map some := rfl
    rw [hstep, swap_scenario1_construct]
    rfl

/-- C5: evaluation of the datetime branch of Base.__from_dict: the
epoch-millisecond integer 1577836800000 is stored as the isoformat string,
not as a datetime value, while the over-precise Scenario 2 string is
truncated to six fractional digits and parsed successfully. -/
theorem datetime_coercion_eval :
    coerceDatetimeValue (.pyInt 1577836800000) = .ok (.pyStr "2020-01-01T00:00:00")
    ∧ coerceDatetimeValue (.pyStr "2020-01-01T00:00:00.1234567Z") =
      .ok (.pyDatetime ⟨2020, 1, 1, 0, 0, 0, 123456, true⟩) := ⟨rfl, rfl⟩

/-- C4: enum coercion can raise: an integer raw value matching no member
reaches the case-insensitive missing hook, which lower-cases it, so
AttributeError propagates out of get_enum_value uncaught. -/
theorem enum_coercion_raises_on_int :
    getEnumValue "AssetClass" assetClassMembers (.pyInt 5) = .error .attributeError := rfl

/-- C4 (amended): for None and for every string raw value enum coercion
never raises: the exact member match is tried first, then the
case-insensitive match, and with no match at all the raw string is returned
unchanged with the non-fatal warning logged; non-string unmatched raw
values, however, raise. -/
theorem enum_coercion_string_total (ename : String) (members : List String) (s : String) :
    getEnumValue ename members (.pyStr s) =
      .ok (enumCoerceStr ename members s, enumWarned members s)
    ∧ getEnumValue ename members PyVal.none = .ok (PyVal.none, false) :=
  ⟨getEnumValue_pyStr ename members s, rfl⟩

/-- C9: clone with the wire (camelCase) spelling of a declared field is
rejected with the invalid-property error: override keys are checked
verbatim against the canonical property names. -/
theorem clone_wire_spelling_rejected :
    cloneObj (schemaNames swapSchema) swapPopulated [("fixedRate", .pyFloat (1/50))] =
      .error (.valueError "Only properties may be passed as kwargs") := rfl

/-- C9 (amended): clone rejects any override key that is not verbatim a
canonical property name, including wire spellings; overriding under the
canonical name yields a copy that differs in exactly that field, the
original fields being unchanged by construction. -/
theorem clone_canonical_behaviour (v : PyVal) :
    cloneObj (schemaNames swapSchema) swapPopulated [("notAField", .pyInt 1)] =
      .error (.valueError "Only properties may be passed as kwargs")
    ∧ cloneObj (schemaNames swapSchema) swapPopulated [("fixed_rate", v)] =
      .ok (setField "fixed_rate" v swapPopulated)
    ∧ setField "fixed_rate" v swapPopulated =
      [("asset_class", .enumMember "AssetClass" "Rates"),
       ("type", .enumMember "AssetType" "Swap"),
       ("pay_or_receive", .pyStr "Pay"),
       ("termination_date", .pyStr "10y"),
       ("notional_currency", .pyStr "USD"),
       ("fixed_rate", v),
       ("floating_rate_option", .pyStr "USD-LIBOR-BBA")]
    ∧ cloneObj (schemaNames swapSchema) swapPopulated [("fixedRate", v)] =
      .error (.valueError "Only properties may be passed as kwargs") :=
  ⟨rfl, rfl, rfl, rfl⟩

/-- C6: the required-argument loop of Base._from_dict does not try the wire
spelling: a required field supplied only in camelCase is not popped, so the
claimed pop result, with the camelCase binding consumed and its value
passed to the constructor, is false. -/
theorem required_pop_ignores_wire_spelling :
    ¬ requiredPass reqOnlySchema [("fixedRate", .pyFloat (1/50))] =
        .ok ([("fixed_rate", .pyFloat (1/50))], []) := by
  intro h
  have hval : requiredPass reqOnlySchema [("fixedRate", .pyFloat (1/50))] =
      .ok ([("fixed_rate", PyVal.none)], [("fixedRate", .pyFloat (1/50))]) := rfl
  rw [hval] at h
  simp at h

/-- C6 (amended): a required field is popped under its canonical name only,
None being supplied to the constructor when that spelling is absent; a value
under the wire spelling stays in the dictionary and is applied by the
property pass after construction, so the final object still carries it. -/
theorem required_pop_canonical_only (v : PyVal) (hv : v ≠ PyVal.none) :
    requiredPass reqOnlySchema [("fixedRate", v)] =
      .ok ([("fixed_rate", PyVal.none)], [("fixedRate", v)])
    ∧ fromDictObj "Req" reqOnlySchema [("fixedRate", v)] =
      .ok (.pyObj "Req" [("fixed_rate", v)]) := by
  have hnn := isNoneV_eq_false v hv
  constructor
  · simp [reqOnlySchema, requiredPass, requiredPassG, coerceReqG]
  · simp [reqOnlySchema, fromDictObj, fromDictObjF, requiredPassG, optionalPassG,
      coerceReqG, coerceOptG, getChain, camelize_fixed_rate, hnn]

/-- C6 witness: the amended behaviour at the concrete override 0.02. -/
theorem required_pop_canonical_only_check :
    requiredPass reqOnlySchema [("fixedRate", .pyFloat (1/50))] =
      .ok ([("fixed_rate", PyVal.none)], [("fixedRate", .pyFloat (1/50))])
    ∧ fromDictObj "Req" reqOnlySchema [("fixedRate", .pyFloat (1/50))] =
      .ok (.pyObj "Req" [("fixed_rate", .pyFloat (1/50))]) :=
  required_pop_canonical_only (.pyFloat (1/50)) (fun h => PyVal.noConfusion h)

/-! ## The duplicate-spelling check lives in BaseMeta only -/

theorem basemetaNormalise_dup_error (origKeys : List String) :
    ∀ (rest : List (String × PyVal)) (k : String) (v : PyVal), (k, v) ∈ rest →
      isUpperStr (normaliseArg k) = false →
      underscoreS (normaliseArg k) ≠ normaliseArg k →
      origKeys.contains (underscoreS (normaliseArg k)) = true →
      ∃ e, basemetaNormalise origKeys rest = .error e := by
  intro rest
  induction rest with
  | nil =>
    intro k v h _ _ _
    exact absurd h (List.not_mem_nil _)
  | cons p tail ih =>
    intro k v hmem hup hsk hcont
    obtain ⟨k0, v0⟩ := p
    by_cases h0 : isUpperStr (normaliseArg k0) = true
    · rcases List.mem_cons.mp hmem with heq | htail
      · injection heq with hk hv
        rw [← hk] at h0
        rw [hup] at h0
        exact absurd h0 Bool.false_ne_true
      · obtain ⟨e, he⟩ := ih k v htail hup hsk hcont
        exact ⟨e, by simp [basemetaNormalise, h0, he, Except.map]⟩
    · by_cases hsk0 : underscoreS (normaliseArg k0) = normaliseArg k0
      · rcases List.mem_cons.mp hmem with heq | htail
        · injection heq with hk hv
          rw [← hk] at hsk0
          exact absurd hsk0 hsk
        · obtain ⟨e, he⟩ := ih k v htail hup hsk hcont
          exact ⟨e, by simp [basemetaNormalise, h0, hsk0, he, Except.map]⟩
      · by_cases hc0 : origKeys.contains (underscoreS (normaliseArg k0)) = true
        · have hmem0 : underscoreS (normaliseArg k0) ∈ origKeys := by simpa using hc0
          exact ⟨.valueError "both specified", by simp [basemetaNormalise, h0, hsk0, hmem0]⟩
        · rcases List.mem_cons.mp hmem with heq | htail
          · injection heq with hk hv
            rw [← hk] at hc0
            exact absurd hcont hc0
          · have hnm0 : underscoreS (normaliseArg k0) ∉ origKeys := by
              intro hmm
              exact hc0 (by simpa using hmm)
            obtain ⟨e, he⟩ := ih k v htail hup hsk hcont
            exact ⟨e, by simp [basemetaNormalise, h0, hsk0, hnm0, he, Except.map]⟩

/-- C7: dictionary construction does not abort on duplicate spellings with
different values: from_dict applied to a payload carrying both fixed_rate
and fixedRate silently constructs the object, the canonical spelling
winning, so no error is surfaced and an object is produced. -/
theorem from_dict_merges_duplicate_spellings :
    fromDictObj "Swap" swapSchema
        [("fixed_rate", .pyFloat (1/100)), ("fixedRate", .pyFloat (1/50))] =
      .ok (.pyObj "Swap" (swapFieldsWithRate (.pyFloat (1/100)))) := rfl

/-- C7 (amended): the duplicate-spelling error exists only in keyword
construction: BaseMeta.__call__ raises whenever a camelCase keyword's
snake_case form is also among the keywords, whatever the two values are;
dictionary construction via from_dict performs no such check and silently
resolves both spellings to one field, the canonical one winning. -/
theorem duplicate_spelling_kwargs_only :
    (∀ (kwargs : List (String × PyVal)) (k : String) (v : PyVal),
      (k, v) ∈ kwargs →
      isUpperStr (normaliseArg k) = false →
      underscoreS (normaliseArg k) ≠ normaliseArg k →
      (kwargs.map Prod.fst).contains (underscoreS (normaliseArg k)) = true →
      ∃ e, basemetaCall kwargs = .error e)
    ∧ fromDictObj "Swap" swapSchema
        [("fixed_rate", .pyFloat (1/100)), ("fixedRate", .pyFloat (1/50))] =
      .ok (.pyObj "Swap" (swapFieldsWithRate (.pyFloat (1/100)))) := by
  constructor
  · intro kwargs k v hmem hup hsk hcont
    exact basemetaNormalise_dup_error (kwargs.map Prod.fst) kwargs k v hmem hup hsk hcont
  · rfl

/-- C7 witness: keyword construction with both spellings of fixed_rate and
different values does raise. -/
theorem duplicate_spelling_kwargs_only_check :
    ∃ e, basemetaCall [("fixedRate", PyVal.pyFloat (1/50)),
                       ("fixed_rate", PyVal.pyFloat (1/100))] = .error e :=
  duplicate_spelling_kwargs_only.1
    [("fixedRate", .pyFloat (1/50)), ("fixed_rate", .pyFloat (1/100))]
    "fixedRate" (.pyFloat (1/50)) (List.mem_cons_self _ _) rfl (by decide) rfl

/-! ## Polymorphic fallback -/

/-- C3: polymorphic construction raises on a non-empty dictionary that
carries no discriminant keys at all: the discriminant pop has no default,
so no fallback happens. -/
theorem fallback_requires_discriminant_keys :
    instrumentFromDict [("foo", .pyInt 1)] = .error (.keyError "asset_class") := rfl

/-- C3 (amended): for every dictionary carrying both discriminant keys in
canonical spelling with string values, a discriminant pair matching no
registered concrete type falls back to the Security default representation
and construction does not raise; a dictionary missing either canonical
discriminant key raises KeyError instead. -/
theorem fallback_to_security (values : List (String × PyVal)) (sa st : String)
    (h1 : lookupA "asset_class" values = some (.pyStr sa))
    (h2 : lookupA "type" (removeKey "asset_class" values) = some (.pyStr st))
    (h3 : registryLookup (enumCoerceStr "AssetClass" assetClassMembers sa)
            (enumCoerceStr "AssetType" assetTypeMembers st) = Option.none) :
    instrumentFromDict values =
      .ok (some (securityFromDict (removeKey "type" (removeKey "asset_class" values)))) := by
  cases values with
  | nil => exact absurd h1 (by simp)
  | cons p rest =>
    simp only [instrumentFromDict, h1, h2, getEnumValue_pyStr, h3]

/-- C3 witness: an unregistered Equity/Exotic pair falls back to Security. -/
theorem fallback_to_security_check :
    instrumentFromDict [("asset_class", .pyStr "Equity"), ("type", .pyStr "Exotic")] =
      .ok (some (securityFromDict [])) :=
  fallback_to_security [("asset_class", .pyStr "Equity"), ("type", .pyStr "Exotic")]
    "Equity" "Exotic" rfl rfl rfl

/-! ## Hash and equality consistency -/

theorem assoc_eq_of_lookups (xs : List (String × PyVal)) :
    ∀ (ys : List (String × PyVal)), keysOf xs = keysOf ys → (keysOf xs).Nodup →
      (∀ p ∈ keysOf xs, lookupA p xs = lookupA p ys) → xs = ys := by
  induction xs with
  | nil =>
    intro ys hk _ _
    cases ys with
    | nil => rfl
    | cons q ys2 => exact absurd hk (by simp [keysOf])
  | cons p xs2 ih =>
    intro ys hk hnd hl
    obtain ⟨k, v⟩ := p
    cases ys with
    | nil => exact absurd hk (by simp [keysOf])
    | cons q ys2 =>
      obtain ⟨k2, w⟩ := q
      simp only [keysOf, List.map_cons, List.cons.injEq] at hk
      obtain ⟨hkk, hkt⟩ := hk
      subst hkk
      simp only [keysOf, List.map_cons, List.nodup_cons] at hnd
      have hv : v = w := by
        have := hl k (by simp [keysOf])
        simpa using this
      subst hv
      have htail : xs2 = ys2 := by
        refine ih ys2 hkt hnd.2 ?_
        intro p hp
        have hpk : ¬ k = p := fun hh => hnd.1 (hh ▸ hp)
        have hmem2 : p ∈ keysOf ((k, v) :: xs2) := by
          simp only [keysOf, List.map_cons]
          exact List.mem_cons_of_mem _ hp
        have := hl p hmem2
        simpa [hpk] using this
      rw [htail]

/-- C8: equality implies hash equality: for two instances of one concrete
type with valid hash caches, Base.__eq__ returning true forces
Base.__hash__ to agree, where the hash xor-combines every declared field
value's hash in field-list order and the empty field list hashes to the
constant 1. -/
theorem hash_consistent_with_eq (a b : TObj)
    (ha : cacheOk a) (hb : cacheOk b)
    (hnames : keysOf a.fields = keysOf b.fields)
    (hnd : (keysOf a.fields).Nodup)
    (heq : eqObj a b) :
    objHash a = objHash b ∧ hashFields [] = 1 := by
  have hfe : a.fields = b.fields := assoc_eq_of_lookups _ _ hnames hnd heq.2.2
  refine ⟨?_, rfl⟩
  unfold objHash
  cases hca : a.cache with
  | none =>
    cases hcb : b.cache with
    | none => rw [hfe]
    | some h2 => rw [hb h2 hcb, hfe]
  | some h1 =>
    rw [ha h1 hca]
    cases hcb : b.cache with
    | none => rw [hfe]
    | some h2 => rw [hb h2 hcb, hfe]

/-- C8 witness: an uncached and a validly cached copy of the same populated
instance hash identically. -/
theorem hash_consistent_with_eq_check :
    objHash ⟨"Swap", swapPopulated, Option.none⟩ =
      objHash ⟨"Swap", swapPopulated, some (hashFields swapPopulated)⟩ ∧
    hashFields [] = 1 :=
  hash_consistent_with_eq
    ⟨"Swap", swapPopulated, Option.none⟩
    ⟨"Swap", swapPopulated, some (hashFields swapPopulated)⟩
    (fun h hh => Option.noConfusion hh)
    (fun h hh => by injection hh with h2; exact h2.symm)
    rfl
    (by decide)
    ⟨rfl, Or.inl rfl, fun p hp => rfl⟩

/-! ## Round-trip: well-typed fully-populated instances

fieldOkB describes the value a fully populated instance carries in a field
of the given declared type; date and datetime fields are excluded, since
as_dict emits raw date objects that the parsing branches of __from_dict
reject.  itemOkB describes sequence elements: constructed objects and enum
members pass through item coercion, and elements of any other declared item
type are kept verbatim by tuple(). -/

def itemOkB : FieldType → PyVal → Bool
  | .objT _ _, x =>
    match x with
    | .pyObj _ _ => true
    | .enumMember _ _ => true
    | _ => false
  | .enumT e _, x =>
    match x with
    | .enumMember e2 _ => e2 == e
    | _ => false
  | _, _ => true

def fieldOkB : FieldType → PyVal → Bool
  | .prim, v =>
    match v with
    | .pyBool _ => true
    | .pyInt _ => true
    | .pyFloat _ => true
    | .pyStr _ => true
    | _ => false
  | .enumT e _, v =>
    match v with
    | .enumMember e2 _ => e2 == e
    | _ => false
  | .objT _ _, v =>
    match v with
    | .pyObj _ _ => true
    | _ => false
  | .seqT item, v =>
    match v with
    | .pyTuple xs => xs.all (itemOkB item)
    | _ => false
  | .dateT, _ => false
  | .datetimeT, _ => false

/-- Field-for-field agreement of an instance with its schema: same names in
declaration order, every value well-typed and populated. -/
def objMatchesB : List (String × Bool × FieldType) → List (String × PyVal) → Bool
  | [], [] => true
  | (n, _, ty) :: fs, (m, v) :: rest => n == m && fieldOkB ty v && objMatchesB fs rest
  | _, _ => false

theorem fieldOk_ne_none (ty : FieldType) (v : PyVal) (h : fieldOkB ty v = true) :
    v ≠ PyVal.none := by
  cases ty <;> cases v <;> simp_all [fieldOkB]

theorem itemOk_coerceItem (fd : String → List (String × Bool × FieldType) →
      List (String × PyVal) → Except PyErr PyVal)
    (ty : FieldType) (x : PyVal) (h : itemOkB ty x = true) :
    coerceItemG fd ty x = .ok x := by
  cases ty <;> cases x <;> simp_all [itemOkB, coerceItemG, getEnumValue, isMemberOf, Except.map]

theorem coerceItems_id (fd : String → List (String × Bool × FieldType) →
      List (String × PyVal) → Except PyErr PyVal)
    (ty : FieldType) (xs : List PyVal)
    (h : xs.all (itemOkB ty) = true) : coerceItemsG fd ty xs = .ok xs := by
  induction xs with
  | nil => simp [coerceItemsG]
  | cons x xs2 ih =>
    simp only [List.all_cons, Bool.and_eq_true] at h
    rw [coerceItemsG, itemOk_coerceItem fd ty x h.1, ih h.2]

theorem fieldOk_coerceOpt (fd : String → List (String × Bool × FieldType) →
      List (String × PyVal) → Except PyErr PyVal)
    (ty : FieldType) (v : PyVal) (h : fieldOkB ty v = true) :
    coerceOptG fd ty v = .ok v := by
  cases ty <;> cases v <;>
    simp_all [fieldOkB, coerceOptG, getEnumValue, isMemberOf, coerceItems_id, Except.map]

theorem fieldOk_coerceReq (fd : String → List (String × Bool × FieldType) →
      List (String × PyVal) → Except PyErr PyVal)
    (ty : FieldType) (v : PyVal) (h : fieldOkB ty v = true) :
    coerceReqG fd ty v = .ok v := by
  cases ty <;> cases v <;> simp_all [fieldOkB, coerceReqG, getEnumValue, isMemberOf, Except.map]

theorem coerceReq_none (fd : String → List (String × Bool × FieldType) →
      List (String × PyVal) → Except PyErr PyVal)
    (ty : FieldType) : coerceReqG fd ty PyVal.none = .ok PyVal.none := by
  cases ty <;> simp [coerceReqG, getEnumValue, Except.map]

/-- Relabel the keys of a field list; as_dict of a fully populated instance
is exactly this relabelling. -/
def mapKeyF (key : String → String) (flds : List (String × PyVal)) : List (String × PyVal) :=
  flds.map (fun p => (key p.1, p.2))

theorem asDict_eq_mapKeyF (fs : List (String × Bool × FieldType)) :
    ∀ (flds : List (String × PyVal)) (camel : Bool), objMatchesB fs flds = true →
      asDict flds camel = mapKeyF (fun n => if camel then camelize n else n) flds := by
  induction fs with
  | nil =>
    intro flds camel h
    cases flds with
    | nil => rfl
    | cons p rest => simp [objMatchesB] at h
  | cons f fs2 ih =>
    intro flds camel h
    obtain ⟨n, r, ty⟩ := f
    cases flds with
    | nil => simp [objMatchesB] at h
    | cons p rest =>
      obtain ⟨m, v⟩ := p
      simp only [objMatchesB, Bool.and_eq_true, beq_iff_eq] at h
      obtain ⟨⟨hnm, hok⟩, htail⟩ := h
      have hne := isNoneV_eq_false v (fieldOk_ne_none ty v hok)
      have hrest := ih rest camel htail
      simp [asDict, mapKeyF, hne] at hrest ⊢
      exact hrest

theorem mapKeyF_nil (key : String → String) : mapKeyF key [] = [] := rfl

theorem mapKeyF_cons (key : String → String) (k : String) (v : PyVal)
    (rest : List (String × PyVal)) :
    mapKeyF key ((k, v) :: rest) = (key k, v) :: mapKeyF key rest := rfl

theorem mem_keysOf_cons (k m : String) (v : PyVal) (rest : List (String × PyVal))
    (h : m ∈ keysOf rest) : m ∈ keysOf ((k, v) :: rest) := by
  simp only [keysOf, List.map_cons]
  exact List.mem_cons_of_mem _ h

theorem self_mem_keysOf_cons (k : String) (v : PyVal) (rest : List (String × PyVal)) :
    k ∈ keysOf ((k, v) :: rest) := by
  simp only [keysOf, List.map_cons]
  exact List.mem_cons_self _ _

theorem keysOf_mapKeyF (key : String → String) (flds : List (String × PyVal)) :
    keysOf (mapKeyF key flds) = (keysOf flds).map key := by
  induction flds with
  | nil => rfl
  | cons p rest ih =>
    obtain ⟨k, v⟩ := p
    simp only [mapKeyF_cons, keysOf, List.map_cons] at ih ⊢
    rw [ih]

theorem lookupA_mapKeyF_none (key : String → String) (flds : List (String × PyVal))
    (q : String) (h : ∀ m ∈ keysOf flds, key m ≠ q) :
    lookupA q (mapKeyF key flds) = Option.none := by
  induction flds with
  | nil => rfl
  | cons p rest ih =>
    obtain ⟨m0, v0⟩ := p
    have hm0 : key m0 ≠ q := h m0 (self_mem_keysOf_cons m0 v0 rest)
    rw [mapKeyF_cons, lookupA_cons, if_neg hm0]
    exact ih (fun m hm => h m (mem_keysOf_cons m0 m v0 rest hm))

theorem lookupA_mapKeyF_pin (key : String → String) (flds : List (String × PyVal))
    (q n : String) (hnd : (keysOf flds).Nodup)
    (hq : ∀ m ∈ keysOf flds, key m = q → m = n) :
    lookupA q (mapKeyF key flds) = if key n = q then lookupA n flds else Option.none := by
  induction flds with
  | nil => simp [mapKeyF_nil]
  | cons p rest ih =>
    obtain ⟨m0, v0⟩ := p
    simp only [keysOf, List.map_cons, List.nodup_cons] at hnd
    by_cases h0 : key m0 = q
    · have hm0n : m0 = n := hq m0 (self_mem_keysOf_cons m0 v0 rest) h0
      subst hm0n
      rw [mapKeyF_cons, lookupA_cons, if_pos h0, if_pos h0, lookupA_cons, if_pos rfl]
    · rw [mapKeyF_cons, lookupA_cons, if_neg h0]
      by_cases hm0 : m0 = n
      · subst hm0
        have hnone : ∀ m ∈ keysOf rest, key m ≠ q := by
          intro m hm hkm
          exact hnd.1 ((hq m (mem_keysOf_cons m0 m v0 rest hm) hkm) ▸ hm)
        rw [lookupA_mapKeyF_none key rest q hnone, if_neg h0]
      · rw [ih hnd.2 (fun m hm hkm => hq m (mem_keysOf_cons m0 m v0 rest hm) hkm)]
        by_cases hkn : key n = q
        · rw [if_pos hkn, if_pos hkn, lookupA_cons, if_neg hm0]
        · rw [if_neg hkn, if_neg hkn]

/-- Names of the required constructor parameters of a schema. -/
def reqNames (gs : List (String × Bool × FieldType)) : List String :=
  (gs.filter (fun x => x.2.1)).map (fun x => x.1)

theorem reqNames_cons_true (n : String) (ty : FieldType)
    (gs : List (String × Bool × FieldType)) :
    reqNames ((n, true, ty) :: gs) = n :: reqNames gs := by
  simp [reqNames]

theorem reqNames_cons_false (n : String) (ty : FieldType)
    (gs : List (String × Bool × FieldType)) :
    reqNames ((n, false, ty) :: gs) = reqNames gs := by
  simp [reqNames]

theorem reqNames_sublist (gs : List (String × Bool × FieldType)) :
    List.Sublist (reqNames gs) (schemaNames gs) :=
  List.Sublist.map _ (List.filter_sublist gs)

theorem reqNames_nodup (gs : List (String × Bool × FieldType))
    (h : (schemaNames gs).Nodup) : (reqNames gs).Nodup :=
  (reqNames_sublist gs).nodup h

theorem mem_reqNames (gs : List (String × Bool × FieldType)) (n : String)
    (ty : FieldType) (h : (n, true, ty) ∈ gs) : n ∈ reqNames gs := by
  simp only [reqNames, List.mem_map, List.mem_filter]
  exact ⟨(n, true, ty), ⟨h, rfl⟩, rfl⟩

theorem mem_schemaNames (gs : List (String × Bool × FieldType))
    (x : String × Bool × FieldType) (h : x ∈ gs) : x.1 ∈ schemaNames gs := by
  simp only [schemaNames, List.mem_map]
  exact ⟨x, h, rfl⟩

theorem mem_reqNames_iff (gs : List (String × Bool × FieldType)) (n : String)
    (r : Bool) (ty : FieldType) (hnd : (schemaNames gs).Nodup)
    (h : (n, r, ty) ∈ gs) : n ∈ reqNames gs ↔ r = true := by
  constructor
  · intro hn
    simp only [reqNames, List.mem_map, List.mem_filter] at hn
    obtain ⟨x, ⟨hxg, hxr⟩, hxn⟩ := hn
    have hnd2 : (gs.map (fun x => x.1)).Nodup := hnd
    have hxe : x = (n, r, ty) := List.inj_on_of_nodup_map hnd2 hxg h hxn
    rw [hxe] at hxr
    exact hxr
  · intro hr
    subst hr
    exact mem_reqNames gs n ty h

theorem objMatches_names (fs : List (String × Bool × FieldType)) :
    ∀ flds, objMatchesB fs flds = true → keysOf flds = schemaNames fs := by
  induction fs with
  | nil =>
    intro flds h
    cases flds with
    | nil => rfl
    | cons p rest => simp [objMatchesB] at h
  | cons f fs2 ih =>
    intro flds h
    obtain ⟨n, r, ty⟩ := f
    cases flds with
    | nil => simp [objMatchesB] at h
    | cons p rest =>
      obtain ⟨m, v⟩ := p
      simp only [objMatchesB, Bool.and_eq_true, beq_iff_eq] at h
      obtain ⟨⟨hnm, _⟩, htail⟩ := h
      have ht := ih rest htail
      simp only [keysOf, schemaNames, List.map_cons] at ht ⊢
      rw [← hnm, ht]

theorem objMatches_lookup (fs : List (String × Bool × FieldType)) :
    ∀ flds, objMatchesB fs flds = true → (schemaNames fs).Nodup →
      ∀ n r ty, (n, r, ty) ∈ fs →
        ∃ v, lookupA n flds = some v ∧ fieldOkB ty v = true := by
  induction fs with
  | nil =>
    intro flds h hnd n r ty hmem
    exact absurd hmem (List.not_mem_nil _)
  | cons f fs2 ih =>
    intro flds h hnd n r ty hmem
    obtain ⟨n0, r0, ty0⟩ := f
    cases flds with
    | nil => simp [objMatchesB] at h
    | cons p rest =>
      obtain ⟨m, v⟩ := p
      simp only [objMatchesB, Bool.and_eq_true, beq_iff_eq] at h
      obtain ⟨⟨hnm, hok⟩, htail⟩ := h
      subst hnm
      simp only [schemaNames, List.map_cons, List.nodup_cons] at hnd
      rcases List.mem_cons.mp hmem with heq | htail2
      · injection heq with h1 h2
        injection h2 with h2a h2b
        subst h1
        subst h2b
        exact ⟨v, by simp [lookupA], hok⟩
      · have hne : ¬ n0 = n := by
          intro hh
          exact hnd.1 (hh ▸ mem_schemaNames fs2 (n, r, ty) htail2)
        have := ih rest htail hnd.2 n r ty htail2
        simpa [lookupA, hne] using this

theorem objMatches_map (fs : List (String × Bool × FieldType)) :
    ∀ flds, objMatchesB fs flds = true → (schemaNames fs).Nodup →
      fs.map (fun x => (x.1, (lookupA x.1 flds).getD PyVal.none)) = flds := by
  induction fs with
  | nil =>
    intro flds h _
    cases flds with
    | nil => rfl
    | cons p rest => simp [objMatchesB] at h
  | cons f fs2 ih =>
    intro flds h hnd
    obtain ⟨n0, r0, ty0⟩ := f
    cases flds with
    | nil => simp [objMatchesB] at h
    | cons p rest =>
      obtain ⟨m, v⟩ := p
      simp only [objMatchesB, Bool.and_eq_true, beq_iff_eq] at h
      obtain ⟨⟨hnm, hok⟩, htail⟩ := h
      subst hnm
      simp only [schemaNames, List.map_cons, List.nodup_cons] at hnd
      simp only [List.map_cons, List.cons.injEq]
      constructor
      · rw [lookupA_cons, if_pos rfl]
        rfl
      · have hcongr : fs2.map (fun x => (x.1, (lookupA x.1 ((n0, v) :: rest)).getD PyVal.none)) =
            fs2.map (fun x => (x.1, (lookupA x.1 rest).getD PyVal.none)) := by
          apply List.map_congr_left
          intro x hx
          have hne : ¬ n0 = x.1 := fun hh => hnd.1 (hh ▸ mem_schemaNames fs2 x hx)
          rw [lookupA_cons, if_neg hne]
        rw [hcongr, ih rest htail hnd.2]

theorem requiredPassG_spec (fd : String → List (String × Bool × FieldType) →
      List (String × PyVal) → Except PyErr PyVal) :
    ∀ (gs : List (String × Bool × FieldType)) (cur : List (String × PyVal)),
      (keysOf cur).Nodup →
      (reqNames gs).Nodup →
      (∀ n ty, (n, true, ty) ∈ gs →
        ∃ w, coerceReqG fd ty ((lookupA n cur).getD PyVal.none) = .ok w) →
      ∃ req rem, requiredPassG fd gs cur = .ok (req, rem) ∧
        (∀ q, lookupA q rem = if q ∈ reqNames gs then Option.none else lookupA q cur) ∧
        (keysOf rem).Nodup ∧
        (∀ n ty, (n, true, ty) ∈ gs → ∀ w,
          coerceReqG fd ty ((lookupA n cur).getD PyVal.none) = .ok w →
          lookupA n req = some w) := by
  intro gs
  induction gs with
  | nil =>
    intro cur hnd _ _
    refine ⟨[], cur, rfl, fun q => ?_, hnd, fun n ty hmem => absurd hmem (List.not_mem_nil _)⟩
    rw [if_neg (by simp [reqNames])]
  | cons f gs2 ih =>
    intro cur hnd hrn hc
    obtain ⟨n0, r0, ty0⟩ := f
    cases r0 with
    | false =>
      have hc2 : ∀ n ty, (n, true, ty) ∈ gs2 →
          ∃ w, coerceReqG fd ty ((lookupA n cur).getD PyVal.none) = .ok w :=
        fun n ty hmem => hc n ty (List.mem_cons_of_mem _ hmem)
      obtain ⟨req, rem, heq, hrem, hnd2, hreq⟩ :=
        ih cur hnd (by rwa [reqNames_cons_false] at hrn) hc2
      refine ⟨req, rem, heq, ?_, hnd2, ?_⟩
      · intro q
        rw [reqNames_cons_false]
        exact hrem q
      · intro n ty hmem w hcw
        rcases List.mem_cons.mp hmem with heq2 | htail
        · injection heq2 with h1 h2
          injection h2 with h2a h2b
          exact absurd h2a.symm (by simp)
        · exact hreq n ty htail w hcw
    | true =>
      obtain ⟨w0, hw0⟩ := hc n0 ty0 (List.mem_cons_self _ _)
      have hrnc := List.nodup_cons.mp (by rwa [reqNames_cons_true] at hrn)
      have hn0 : n0 ∉ reqNames gs2 := hrnc.1
      have hnd' := nodup_keysOf_removeKey n0 cur hnd
      have hc' : ∀ n ty, (n, true, ty) ∈ gs2 →
          ∃ w, coerceReqG fd ty ((lookupA n (removeKey n0 cur)).getD PyVal.none) = .ok w := by
        intro n ty hmem
        have hne : ¬ n = n0 := fun hh => hn0 (hh ▸ mem_reqNames gs2 n ty hmem)
        rw [lookupA_removeKey n n0 cur hnd, if_neg hne]
        exact hc n ty (List.mem_cons_of_mem _ hmem)
      obtain ⟨req, rem, heq, hrem, hnd2, hreq⟩ := ih (removeKey n0 cur) hnd' hrnc.2 hc'
      refine ⟨(n0, w0) :: req, rem, ?_, ?_, hnd2, ?_⟩
      · simp only [requiredPassG, hw0, heq]
      · intro q
        rw [reqNames_cons_true]
        by_cases hq : q ∈ n0 :: reqNames gs2
        · rw [if_pos hq]
          rcases List.mem_cons.mp hq with hq0 | hq2
          · subst hq0
            rw [hrem q, if_neg hn0, lookupA_removeKey q q cur hnd, if_pos rfl]
          · rw [hrem q, if_pos hq2]
        · have hq1 : ¬ q = n0 := fun hh => hq (hh ▸ List.mem_cons_self _ _)
          have hq2 : q ∉ reqNames gs2 := fun hh => hq (List.mem_cons_of_mem _ hh)
          rw [if_neg hq, hrem q, if_neg hq2, lookupA_removeKey q n0 cur hnd, if_neg hq1]
      · intro n ty hmem w hcw
        rcases List.mem_cons.mp hmem with heq2 | htail
        · injection heq2 with h1 h2
          injection h2 with h2a h2b
          subst h1
          subst h2b
          rw [hw0] at hcw
          injection hcw with hww
          rw [lookupA_cons, if_pos rfl, hww]
        · have hne : ¬ n0 = n := fun hh => hn0 (hh ▸ mem_reqNames gs2 n ty htail)
          rw [lookupA_cons, if_neg hne]
          apply hreq n ty htail w
          rw [lookupA_removeKey n n0 cur hnd, if_neg (fun hh => hne hh.symm)]
          exact hcw

theorem optionalPassG_spec (fd : String → List (String × Bool × FieldType) →
      List (String × PyVal) → Except PyErr PyVal)
    (req rem : List (String × PyVal)) (F : String → PyVal) :
    ∀ gs, (∀ n r ty, (n, r, ty) ∈ gs →
      (if isNoneV (getChain n rem) then
        Except.ok (if r then (lookupA n req).getD PyVal.none else PyVal.none)
       else coerceOptG fd ty (getChain n rem)) = .ok (F n)) →
    optionalPassG fd gs req rem = .ok (gs.map (fun x => (x.1, F x.1))) := by
  intro gs
  induction gs with
  | nil => intro _; rfl
  | cons f gs2 ih =>
    intro h
    obtain ⟨n, r, ty⟩ := f
    have hhead := h n r ty (List.mem_cons_self _ _)
    have htail := ih (fun n2 r2 ty2 hm => h n2 r2 ty2 (List.mem_cons_of_mem _ hm))
    by_cases hn : isNoneV (getChain n rem) = true
    · rw [if_pos hn] at hhead
      injection hhead with hv
      simp only [optionalPassG, hn, if_true, htail, List.map_cons]
      rw [hv]
    · have hnf : isNoneV (getChain n rem) = false := by simpa using hn
      rw [if_neg hn] at hhead
      simp only [optionalPassG, hnf, htail, List.map_cons, hhead]
      simp


/-- Round-trip through the construction passes for a relabelling key of the
canonical names: the canonical projection (key the identity) and the
camelCase projection (key camelize) of as_dict both satisfy the
hypotheses. -/
theorem fromDictG_roundtrip (fd : String → List (String × Bool × FieldType) →
      List (String × PyVal) → Except PyErr PyVal)
    (key : String → String) (t : String)
    (fs : List (String × Bool × FieldType)) (flds : List (String × PyVal))
    (hA : (schemaNames fs).Nodup)
    (hM2 : ∀ n ∈ schemaNames fs, ∀ m ∈ schemaNames fs, key n = key m → n = m)
    (hM3 : ∀ n ∈ schemaNames fs, ∀ m ∈ schemaNames fs, key m = n → m = n)
    (hM4 : ∀ n ∈ schemaNames fs, ∀ m ∈ schemaNames fs, key m = camelize n → m = n)
    (hM5 : ∀ n ∈ schemaNames fs, ∀ m ∈ schemaNames fs, camelize n = m → n = m)
    (hM6 : ∀ n ∈ schemaNames fs, key n = n ∨ key n = camelize n)
    (hmatch : objMatchesB fs flds = true) :
    (match requiredPassG fd fs (mapKeyF key flds) with
     | Except.error e => Except.error e
     | Except.ok rq =>
       match optionalPassG fd fs rq.1 rq.2 with
       | Except.error e => Except.error e
       | Except.ok out => Except.ok (PyVal.pyObj t out)) =
      Except.ok (PyVal.pyObj t flds) := by
  have hnames : keysOf flds = schemaNames fs := objMatches_names fs flds hmatch
  have hndf : (keysOf flds).Nodup := by rw [hnames]; exact hA
  have hndv : (keysOf (mapKeyF key flds)).Nodup := by
    rw [keysOf_mapKeyF, hnames]
    exact List.Nodup.map_on hM2 hA
  have hpin : ∀ n ∈ schemaNames fs, ∀ q : String,
      (∀ m ∈ schemaNames fs, key m = q → m = n) →
      lookupA q (mapKeyF key flds) = if key n = q then lookupA n flds else Option.none := by
    intro n _ q hq
    exact lookupA_mapKeyF_pin key flds q n hndf (by rw [hnames]; exact hq)
  have hcoerce : ∀ n ty, (n, true, ty) ∈ fs →
      ∃ w, coerceReqG fd ty ((lookupA n (mapKeyF key flds)).getD PyVal.none) = .ok w := by
    intro n ty hmem
    have hn : n ∈ schemaNames fs := mem_schemaNames fs (n, true, ty) hmem
    obtain ⟨vn, hvn, hokn⟩ := objMatches_lookup fs flds hmatch hA n true ty hmem
    rw [hpin n hn n (fun m hm hk => hM3 n hn m hm hk)]
    by_cases hk1 : key n = n
    · rw [if_pos hk1, hvn]
      exact ⟨vn, fieldOk_coerceReq fd ty vn hokn⟩
    · rw [if_neg hk1]
      exact ⟨PyVal.none, coerceReq_none fd ty⟩
  obtain ⟨req, rem, hreqeq, hrem, hndrem, hreqlook⟩ :=
    requiredPassG_spec fd fs (mapKeyF key flds) hndv (reqNames_nodup fs hA) hcoerce
  have hopt : optionalPassG fd fs req rem =
      .ok (fs.map (fun x => (x.1, (lookupA x.1 flds).getD PyVal.none))) := by
    apply optionalPassG_spec fd req rem (fun n => (lookupA n flds).getD PyVal.none)
    intro n r ty hmem
    have hn : n ∈ schemaNames fs := mem_schemaNames fs (n, r, ty) hmem
    obtain ⟨vn, hvn, hokn⟩ := objMatches_lookup fs flds hmatch hA n r ty hmem
    have hvnn : vn ≠ PyVal.none := fieldOk_ne_none ty vn hokn
    have hla : lookupA n (mapKeyF key flds) =
        if key n = n then lookupA n flds else Option.none :=
      hpin n hn n (fun m hm hk => hM3 n hn m hm hk)
    have hlb : lookupA (camelize n) (mapKeyF key flds) =
        if key n = camelize n then lookupA n flds else Option.none :=
      hpin n hn (camelize n) (fun m hm hk => hM4 n hn m hm hk)
    have hkeyc : camelize n ∈ schemaNames fs → camelize n = n :=
      fun hcs => (hM5 n hn (camelize n) hcs rfl).symm
    cases r with
    | true =>
      have hnreq : n ∈ reqNames fs := mem_reqNames fs n ty hmem
      have hra : lookupA n rem = Option.none := by rw [hrem n, if_pos hnreq]
      have hreqval : key n = n → lookupA n req = some vn := by
        intro hk1
        apply hreqlook n ty hmem vn
        rw [hla, if_pos hk1, hvn]
        exact fieldOk_coerceReq fd ty vn hokn
      by_cases hcs : camelize n ∈ schemaNames fs
      · have hcn : camelize n = n := hkeyc hcs
        have hk1 : key n = n := by
          rcases hM6 n hn with h | h
          · exact h
          · rw [hcn] at h
            exact h
        have hchain : getChain n rem = PyVal.none := by
          simp [getChain, hra, hcn]
        rw [hchain]
        simp [isNoneV, hreqval hk1, hvn]
      · have hcreq : camelize n ∉ reqNames fs :=
          fun hh => hcs ((reqNames_sublist fs).subset hh)
        have hrb : lookupA (camelize n) rem = lookupA (camelize n) (mapKeyF key flds) := by
          rw [hrem (camelize n), if_neg hcreq]
        by_cases hk2 : key n = camelize n
        · have hchain : getChain n rem = vn := by
            simp [getChain, hra, hrb, hlb, hk2, hvn]
          rw [hchain]
          simp [isNoneV_eq_false vn hvnn, fieldOk_coerceOpt fd ty vn hokn, hvn]
        · have hk1 : key n = n := (hM6 n hn).resolve_right hk2
          have hchain : getChain n rem = PyVal.none := by
            simp [getChain, hra, hrb, hlb, hk2]
          rw [hchain]
          simp [isNoneV, hreqval hk1, hvn]
    | false =>
      have hnreq : n ∉ reqNames fs := fun hh => by
        simpa using (mem_reqNames_iff fs n false ty hA hmem).mp hh
      have hra : lookupA n rem = lookupA n (mapKeyF key flds) := by
        rw [hrem n, if_neg hnreq]
      by_cases hk1 : key n = n
      · have hchain : getChain n rem = vn := by
          simp [getChain, hra, hla, hk1, hvn]
        rw [hchain]
        simp [isNoneV_eq_false vn hvnn, fieldOk_coerceOpt fd ty vn hokn, hvn]
      · have hk2 : key n = camelize n := (hM6 n hn).resolve_left hk1
        have hcs : camelize n ∉ schemaNames fs := by
          intro hcs
          exact hk1 (by rw [hk2, hkeyc hcs])
        have hcreq : camelize n ∉ reqNames fs :=
          fun hh => hcs ((reqNames_sublist fs).subset hh)
        have hrb : lookupA (camelize n) rem = lookupA (camelize n) (mapKeyF key flds) := by
          rw [hrem (camelize n), if_neg hcreq]
        have hcnn : ¬ camelize n = n := fun hh => hk1 (by rw [hk2, hh])
        have hchain : getChain n rem = vn := by
          simp [getChain, hra, hla, hk1, hrb, hlb, hk2, hvn, hcnn]
        rw [hchain]
        simp [isNoneV_eq_false vn hvnn, fieldOk_coerceOpt fd ty vn hokn, hvn]
  rw [hreqeq]
  show (match optionalPassG fd fs req rem with
        | Except.error e => Except.error e
        | Except.ok out => Except.ok (PyVal.pyObj t out)) =
      Except.ok (PyVal.pyObj t flds)
  rw [hopt]
  show Except.ok (PyVal.pyObj t
      (fs.map (fun x => (x.1, (lookupA x.1 flds).getD PyVal.none)))) =
    Except.ok (PyVal.pyObj t flds)
  rw [objMatches_map fs flds hmatch hA]
